import Mathlib

/-!
Verification of the MARC record extractor (`src/main.rs`, `src/db.rs`,
`src/writer.rs`) against its natural-language specification.

Strings are modelled as `List Char` (all patterns the program searches for
are ASCII, so Rust byte indices and char indices coincide on every position
the program computes).  Fallible effects (chunk fetch, per-record write,
queue send) are modelled by explicit failure parameters.
-/

namespace MarcExtract

/-! ### String primitives (models of the `str` operations used by writer.rs) -/

/-- Model of Rust `char::is_whitespace` restricted to the ASCII range
(the two agree on every ASCII character). -/
def ws (c : Char) : Bool := c.isWhitespace

/-- Model of Rust `str::trim`: drop whitespace from both ends. -/
def trimChars (s : List Char) : List Char :=
  ((s.dropWhile ws).reverse.dropWhile ws).reverse

/-- Model of Rust `str::find(pat)`: index of the first occurrence of `pat`
as a contiguous substring, if any. -/
def findSub (pat : List Char) : List Char → Option Nat
  | [] => if pat.isEmpty then some 0 else none
  | c :: rest =>
    if pat.isPrefixOf (c :: rest) then some 0
    else (findSub pat rest).map (· + 1)

/-- Whether `pat` occurs somewhere in `s` as a contiguous substring. -/
def containsSub (pat : List Char) : List Char → Bool
  | [] => pat.isEmpty
  | c :: rest => pat.isPrefixOf (c :: rest) || containsSub pat rest

/-- Fuel-driven worker for `replaceAll` (structural recursion on the fuel so
that concrete inputs evaluate by kernel reduction). -/
def replaceAllF (pat rep : List Char) : Nat → List Char → List Char
  | 0, s => s
  | _ + 1, [] => []
  | fuel + 1, c :: rest =>
    if pat ≠ [] ∧ pat.isPrefixOf (c :: rest) then
      rep ++ replaceAllF pat rep fuel ((c :: rest).drop pat.length)
    else
      c :: replaceAllF pat rep fuel rest

/-- Model of Rust `str::replace(pat, rep)`: replace every non-overlapping
occurrence of `pat`, scanning left to right. -/
def replaceAll (pat rep s : List Char) : List Char :=
  replaceAllF pat rep s.length s

/-- The first pattern of the XML-declaration scan in `clean_marc_xml`. -/
def xmlDeclStart : List Char := "<?xml".data

/-- The terminator pattern of the XML-declaration scan. -/
def xmlDeclEnd : List Char := "?>".data

/-- The exact MARC21-slim open `collection` tag removed by `clean_marc_xml`. -/
def openTagMarc : List Char :=
  "<collection xmlns=\"http://www.loc.gov/MARC21/slim\">".data

/-- The closing `collection` tag removed by `clean_marc_xml`. -/
def closeTagStr : List Char := "</collection>".data

/-- The generic open-tag pattern of the final scan in `clean_marc_xml`. -/
def openTagAny : List Char := "<collection".data

/-- writer.rs, `clean_marc_xml` step: remove the first XML declaration
(`cleaned.find("<?xml")` then `cleaned[pos..].find("?>")`, then
`replace_range(pos..pos+end_pos+2, "")`). -/
def removeFirstDecl (s : List Char) : List Char :=
  match findSub xmlDeclStart s with
  | none => s
  | some pos =>
    match findSub xmlDeclEnd (s.drop pos) with
    | none => s
    | some e => s.take pos ++ s.drop (pos + e + 2)

/-- writer.rs, `clean_marc_xml` step: remove the first other
`<collection ...>` open tag (`cleaned.find("<collection")` then
`cleaned[pos..].find('>')`, then `replace_range(pos..pos+end_pos+1, "")`). -/
def removeFirstOpenTag (s : List Char) : List Char :=
  match findSub openTagAny s with
  | none => s
  | some pos =>
    match (s.drop pos).findIdx? (· = '>') with
    | none => s
    | some e => s.take pos ++ s.drop (pos + e + 1)

/-- writer.rs, `XmlWriter::clean_marc_xml`: trim, drop the first XML
declaration, delete all exact MARC21-slim open tags, delete all
`</collection>` tags, drop the first other `<collection ...>` open tag,
trim again. -/
def clean_marc_xml (marc : List Char) : List Char :=
  let c0 := trimChars marc
  let c1 := removeFirstDecl c0
  let c2 := replaceAll openTagMarc [] c1
  let c3 := replaceAll closeTagStr [] c2
  let c4 := removeFirstOpenTag c3
  trimChars c4

example :
    clean_marc_xml "<?xml?><?xml?>x".data = "<?xml?>x".data := by decide

example :
    clean_marc_xml "<?xml?>x".data = "x".data := by decide

example :
    clean_marc_xml "</collec</collection>tion>".data = "</collection>".data := by
  decide

example :
    clean_marc_xml
      "<?xml version=\"1.0\"?><collection xmlns=\"http://www.loc.gov/MARC21/slim\"><record/></collection>".data
      = "<record/>".data := by decide

/-! ### Database model (db.rs)

A `Row` is one row of `biblio.record_entry` as seen by the two queries:
its `id`, its `deleted` flag and its nullable `marc` payload.  A database
is the list of rows in `ORDER BY id` order (the order every query in db.rs
requests). -/

/-- One row of `biblio.record_entry`. -/
structure Row where
  id : Int
  deleted : Bool
  marc : Option (List Char)
deriving DecidableEq

/-- db.rs, `MarcRecord`: a fetched record with non-null payload. -/
structure MarcRecord where
  id : Int
  marc : List Char
deriving DecidableEq

/-- db.rs, `DatabaseConfig`. -/
structure DatabaseConfig where
  include_deleted : Bool
  chunk_size : Int
deriving DecidableEq

/-- The rows the `WHERE deleted = false` filter keeps (all rows when
deleted records are included). -/
def eligible (db : List Row) (incl : Bool) : List Row :=
  if incl then db else db.filter (fun r => !r.deleted)

/-- db.rs, `get_record_count`: `SELECT COUNT(*)` over the filtered table. -/
def get_record_count (db : List Row) (incl : Bool) : Int :=
  (eligible db incl).length

/-- The row list produced by the `LIMIT $1 OFFSET $2` query of
`fetch_records` (the filtered, ordered relation restricted to
`[offset, offset + chunk_size)`). -/
def page (db : List Row) (cfg : DatabaseConfig) (offset : Int) : List Row :=
  ((eligible db cfg.include_deleted).drop offset.toNat).take cfg.chunk_size.toNat

/-- db.rs, `fetch_records` row post-filter: drop a row whose payload is
NULL or empty after trimming, keep the rest as a `MarcRecord`. -/
def keepRecord (r : Row) : Option MarcRecord :=
  match r.marc with
  | none => none
  | some m => if (trimChars m).isEmpty then none else some ⟨r.id, m⟩

/-- db.rs, `fetch_records`: run the paginated query, then keep only rows
with non-null, non-blank payloads. -/
def fetch_records (db : List Row) (cfg : DatabaseConfig) (offset : Int) :
    List MarcRecord :=
  (page db cfg offset).filterMap keepRecord

/-! ### Pipeline model (main.rs)

`main` is modelled as a function of the database, the relevant CLI
arguments, a chunk-fetch failure oracle `ff` (which offsets' queries
fail) and a per-record write failure oracle `wf`.  Concurrency is
resolved by processing chunks in spawn order; every counter and every
per-record fact the claims mention is order-independent. -/

/-- The CLI arguments main.rs actually consumes in the modelled path. -/
structure Args where
  chunk_size : Int
  include_deleted : Bool
  limit : Option Int
deriving DecidableEq

/-- main.rs line 90: `args.limit.map(|l| l.min(total_count)).unwrap_or(total_count)`. -/
def records_to_process (total : Int) : Option Int → Int
  | some l => min l total
  | none => total

/-- main.rs line 135: `(records_to_process + args.chunk_size - 1) / args.chunk_size`
(Rust `i64` division truncates toward zero, i.e. `Int.tdiv`). -/
def num_chunks (rtp s : Int) : Int := (rtp + s - 1).tdiv s

/-- The chunk offsets of the spawn loop: `chunk_id * chunk_size` for
`chunk_id in 0..num_chunks`. -/
def plannedOffsets (total s : Int) (lim : Option Int) : List Int :=
  (List.range (num_chunks (records_to_process total lim) s).toNat).map
    (fun i : Nat => (i : Int) * s)

/-- main.rs lines 159-163: a chunk task returns immediately when
`offset >= max` for a configured limit `max`. -/
def offsetAllowed (lim : Option Int) (o : Int) : Bool :=
  match lim with
  | some mx => decide (o < mx)
  | none => true

/-- The send loop of a chunk task (main.rs lines 165-178): on a fetch
error (`none`) increment the error counter and deliver nothing; on
success deliver records one by one, stopping at the first failed send
(`cap` sends are accepted before the queue closes).  Result: delivered
records and the contribution to the `errors` counter. -/
def chunkTask : Option (List MarcRecord) → Nat → List MarcRecord × Nat
  | none, _ => ([], 1)
  | some recs, cap => (recs.take cap, 0)

/-- Outcome of the chunk's fetch query: `none` models a query error.
The query also errors when the SQL is invalid (negative `LIMIT` or
`OFFSET` is rejected by PostgreSQL). -/
def fetchOutcome (db : List Row) (cfg : DatabaseConfig) (ff : Int → Bool)
    (o : Int) : Option (List MarcRecord) :=
  if ff o then none
  else if cfg.chunk_size < 0 ∨ o < 0 then none
  else some (fetch_records db cfg o)

/-- One chunk task end to end: skip check, fetch, send loop.  In the
modelled runs the writer drains the queue until all senders are dropped,
so every send is accepted (`cap = recs.length`). -/
def chunkRun (db : List Row) (args : Args) (ff : Int → Bool) (o : Int) :
    List MarcRecord × Nat :=
  if offsetAllowed args.limit o then
    match fetchOutcome db ⟨args.include_deleted, args.chunk_size⟩ ff o with
    | some recs => chunkTask (some recs) recs.length
    | none => chunkTask none 0
  else ([], 0)

/-- All records that reach the queue (and hence the Sink), in chunk order. -/
def sentRecords (db : List Row) (args : Args) (ff : Int → Bool) :
    List MarcRecord :=
  ((plannedOffsets (get_record_count db args.include_deleted) args.chunk_size
      args.limit).map (fun o => (chunkRun db args ff o).1)).flatten

/-- Final value of the `errors` counter (chunk-fetch failures). -/
def chunkErrors (db : List Row) (args : Args) (ff : Int → Bool) : Nat :=
  ((plannedOffsets (get_record_count db args.include_deleted) args.chunk_size
      args.limit).map (fun o => (chunkRun db args ff o).2)).sum

/-- writer.rs, `XmlWriter::new`: the bytes written on construction (XML
declaration plus open collection tag). -/
def xmlHeader : List Char :=
  "<?xml version=\"1.0\" encoding=\"UTF-8\"?>\n<collection xmlns=\"http://www.loc.gov/MARC21/slim\">\n".data

/-- writer.rs, `XmlWriter::finalize`: the closing bytes. -/
def xmlFooter : List Char := "</collection>\n".data

/-- writer.rs, `XmlWriter::write_record`: append the cleaned payload and a
newline to the output. -/
def write_record (buf : List Char) (r : MarcRecord) : List Char :=
  buf ++ clean_marc_xml r.marc ++ ['\n']

/-- writer.rs, `XmlWriter::finalize`: append the closing collection tag. -/
def finalizeWriter (buf : List Char) : List Char := buf ++ xmlFooter

/-- The writer task loop (main.rs lines 114-131): drain the queue; on a
successful write increment `processed`, on a failed write log and
continue.  Returns the output buffer and the `processed` counter. -/
def writeLoop (wf : MarcRecord → Bool) :
    List Char → Nat → List MarcRecord → List Char × Nat
  | buf, k, [] => (buf, k)
  | buf, k, r :: rest =>
    if wf r then writeLoop wf buf k rest
    else writeLoop wf (write_record buf r) (k + 1) rest

/-- The observable result of one run of `main`. -/
structure RunResult where
  output : List Char
  processed : Nat
  errors : Nat
  exitCode : Nat
deriving DecidableEq

/-- main.rs, `main` (modelled success path): count, early return on zero,
plan chunks, run every chunk task, drain the queue into the writer,
finalize, exit 1 iff any chunk failed. -/
def runMain (db : List Row) (args : Args) (ff : Int → Bool)
    (wf : MarcRecord → Bool) : RunResult :=
  if get_record_count db args.include_deleted = 0 then ⟨[], 0, 0, 0⟩
  else
    let sent := sentRecords db args ff
    let errs := chunkErrors db args ff
    let res := writeLoop wf xmlHeader 0 sent
    ⟨finalizeWriter res.1, res.2, errs, if 0 < errs then 1 else 0⟩

example :
    runMain [] ⟨1000, false, none⟩ (fun _ => false) (fun _ => false)
      = ⟨[], 0, 0, 0⟩ := by decide

example :
    (runMain [⟨1, false, some "<record/>".data⟩] ⟨1000, false, none⟩
        (fun _ => false) (fun _ => false)).output
      = xmlHeader ++ "<record/>".data ++ ['\n'] ++ xmlFooter := by decide

example :
    (runMain [⟨1, false, some "a".data⟩, ⟨2, false, some "b".data⟩]
        ⟨1, false, none⟩ (fun o => o == 0) (fun _ => false)).errors = 1 := by
  decide

/-! ### Lemmas about the string primitives -/

/-- The head of the list, if any, fails `p`. -/
def leadOk (p : Char → Bool) : List Char → Bool
  | [] => true
  | c :: _ => !p c

theorem leadOk_dropWhile (p : Char → Bool) (s : List Char) :
    leadOk p (s.dropWhile p) = true := by
  induction s with
  | nil => rfl
  | cons c rest ih =>
    by_cases h : p c
    · simpa [List.dropWhile_cons, h] using ih
    · simp [List.dropWhile_cons, h, leadOk]

theorem dropWhile_of_leadOk {p : Char → Bool} {s : List Char}
    (h : leadOk p s = true) : s.dropWhile p = s := by
  cases s with
  | nil => rfl
  | cons c rest =>
    simp only [leadOk, Bool.not_eq_true'] at h
    simp [List.dropWhile_cons, h]

theorem leadOk_append {p : Char → Bool} {x y : List Char}
    (h : leadOk p (x ++ y) = true) : leadOk p x = true := by
  cases x with
  | nil => rfl
  | cons c rest => simpa [leadOk] using h

/-- Rust `str::trim` is idempotent. -/
theorem trimChars_idem (s : List Char) :
    trimChars (trimChars s) = trimChars s := by
  have hw : leadOk ws (s.dropWhile ws) = true := leadOk_dropWhile ws s
  have hu : leadOk ws ((s.dropWhile ws).reverse.dropWhile ws) = true :=
    leadOk_dropWhile ws _
  have hsplit : s.dropWhile ws =
      ((s.dropWhile ws).reverse.dropWhile ws).reverse ++
        ((s.dropWhile ws).reverse.takeWhile ws).reverse := by
    conv_lhs => rw [← List.reverse_reverse (s.dropWhile ws),
      ← List.takeWhile_append_dropWhile (p := ws)
        (l := (s.dropWhile ws).reverse)]
    rw [List.reverse_append]
  have ht : leadOk ws (trimChars s) = true :=
    leadOk_append (hsplit ▸ hw)
  show (((trimChars s).dropWhile ws).reverse.dropWhile ws).reverse = trimChars s
  rw [dropWhile_of_leadOk ht]
  show ((((s.dropWhile ws).reverse.dropWhile ws).reverse).reverse.dropWhile
    ws).reverse = trimChars s
  rw [List.reverse_reverse, dropWhile_of_leadOk hu]
  rfl

theorem isPrefixOf_of_append {p q s : List Char}
    (h : (p ++ q).isPrefixOf s = true) : p.isPrefixOf s = true := by
  induction p generalizing s with
  | nil => simp
  | cons a p ih =>
    cases s with
    | nil => simp [List.isPrefixOf] at h
    | cons b s =>
      simp only [List.cons_append, List.isPrefixOf, Bool.and_eq_true] at h ⊢
      exact ⟨h.1, ih h.2⟩

theorem containsSub_of_append {p q : List Char} {s : List Char}
    (h : containsSub (p ++ q) s = true) : containsSub p s = true := by
  induction s with
  | nil =>
    simp only [containsSub, List.isEmpty_eq_true, List.append_eq_nil] at h ⊢
    exact h.1
  | cons c rest ih =>
    simp only [containsSub, Bool.or_eq_true] at h ⊢
    rcases h with h | h
    · exact Or.inl (isPrefixOf_of_append h)
    · exact Or.inr (ih h)

theorem findSub_eq_none {pat : List Char} {s : List Char}
    (h : containsSub pat s = false) : findSub pat s = none := by
  induction s with
  | nil =>
    simp only [containsSub] at h
    simp [findSub, h]
  | cons c rest ih =>
    simp only [containsSub, Bool.or_eq_false_iff] at h
    simp [findSub, h.1, ih h.2]

theorem replaceAllF_of_not_contains {pat rep : List Char} :
    ∀ (fuel : Nat) (s : List Char), containsSub pat s = false →
      replaceAllF pat rep fuel s = s
  | 0, _, _ => rfl
  | _ + 1, [], _ => rfl
  | fuel + 1, c :: rest, h => by
    simp only [containsSub, Bool.or_eq_false_iff] at h
    rw [replaceAllF, if_neg (by simp [h.1]),
      replaceAllF_of_not_contains fuel rest h.2]

/-- Rust `str::replace` leaves a string with no occurrence of the pattern
unchanged. -/
theorem replaceAll_of_not_contains {pat rep s : List Char}
    (h : containsSub pat s = false) : replaceAll pat rep s = s :=
  replaceAllF_of_not_contains s.length s h

theorem removeFirstDecl_of_not_contains {s : List Char}
    (h : containsSub xmlDeclStart s = false) : removeFirstDecl s = s := by
  unfold removeFirstDecl
  rw [findSub_eq_none h]

theorem removeFirstOpenTag_of_not_contains {s : List Char}
    (h : containsSub openTagAny s = false) : removeFirstOpenTag s = s := by
  unfold removeFirstOpenTag
  rw [findSub_eq_none h]

theorem replaceAllF_length_le (pat : List Char) :
    ∀ (fuel : Nat) (s : List Char),
      (replaceAllF pat [] fuel s).length ≤ s.length
  | 0, _ => Nat.le_refl _
  | _ + 1, [] => Nat.le_refl _
  | fuel + 1, c :: rest => by
    rw [replaceAllF]
    split
    · next hp =>
      have h1 := replaceAllF_length_le pat fuel ((c :: rest).drop pat.length)
      simp only [List.nil_append, List.length_drop] at h1 ⊢
      omega
    · have h1 := replaceAllF_length_le pat fuel rest
      simp only [List.length_cons]
      omega

theorem replaceAllF_length_lt {pat : List Char} (hpat : pat ≠ []) :
    ∀ (fuel : Nat) (s : List Char), s.length ≤ fuel →
      containsSub pat s = true → (replaceAllF pat [] fuel s).length < s.length
  | 0, s, hf, hc => by
    have hs : s = [] := List.length_eq_zero.mp (Nat.le_zero.mp hf)
    subst hs
    simp only [containsSub, List.isEmpty_eq_true] at hc
    exact absurd hc hpat
  | fuel + 1, [], _, hc => by
    simp only [containsSub, List.isEmpty_eq_true] at hc
    exact absurd hc hpat
  | fuel + 1, c :: rest, hf, hc => by
    rw [replaceAllF]
    split
    · next hp =>
      have h1 := replaceAllF_length_le pat fuel ((c :: rest).drop pat.length)
      have h2 : 1 ≤ pat.length := by
        cases pat with
        | nil => exact absurd rfl hpat
        | cons _ _ => simp
      simp only [List.nil_append, List.length_drop, List.length_cons] at h1 ⊢
      omega
    · next hp =>
      simp only [containsSub, Bool.or_eq_true] at hc
      have hnp : pat.isPrefixOf (c :: rest) = false := by
        by_contra hb
        exact hp ⟨hpat, by simpa using hb⟩
      rcases hc with hc | hc
      · rw [hnp] at hc; exact absurd hc (by simp)
      · have h1 := replaceAllF_length_lt hpat fuel rest
          (by simpa using Nat.le_of_succ_le_succ hf) hc
        simp only [List.length_cons]
        omega

/-- Whenever the pattern occurs anywhere in the string, one `str::replace`
pass with the empty replacement strictly shrinks the string. -/
theorem replaceAll_length_lt {pat s : List Char} (hpat : pat ≠ [])
    (hc : containsSub pat s = true) :
    (replaceAll pat [] s).length < s.length :=
  replaceAllF_length_lt hpat s.length s (Nat.le_refl _) hc

/-! ### Lemmas about the writer loop -/

/-- The record fragments the Sink writes, in arrival order: one cleaned
payload plus newline per record whose write succeeds. -/
def bodyChars (wf : MarcRecord → Bool) (l : List MarcRecord) : List Char :=
  ((l.filter (fun r => !wf r)).map
    (fun r => clean_marc_xml r.marc ++ ['\n'])).flatten

theorem writeLoop_spec (wf : MarcRecord → Bool) (l : List MarcRecord) :
    ∀ (buf : List Char) (k : Nat),
      writeLoop wf buf k l =
        (buf ++ bodyChars wf l, k + List.countP (fun r => !wf r) l) := by
  induction l with
  | nil => intro buf k; simp [writeLoop, bodyChars]
  | cons r rest ih =>
    intro buf k
    by_cases h : wf r
    · rw [writeLoop, if_pos h, ih]
      simp [bodyChars, List.countP_cons, h]
    · rw [writeLoop, if_neg h, ih]
      simp [bodyChars, List.countP_cons, h, write_record, List.append_assoc]
      omega

/-! ### Lemmas about the chunk planner -/

theorem num_chunks_nonpos {rtp s : Int} (hs : 0 < s) (h : rtp ≤ 0) :
    num_chunks rtp s ≤ 0 := by
  unfold num_chunks
  by_cases ha : 0 ≤ rtp + s - 1
  · rw [Int.tdiv_eq_ediv ha (Int.le_of_lt hs)]
    rw [Int.ediv_eq_zero_of_lt ha (by omega)]
  · have h1 : 0 ≤ (-(rtp + s - 1)).tdiv s :=
      Int.tdiv_nonneg (by omega) (Int.le_of_lt hs)
    rw [Int.neg_tdiv] at h1
    omega

theorem num_chunks_spec {rtp s : Int} (hs : 0 < s) (h : 0 < rtp) :
    rtp ≤ s * num_chunks rtp s ∧ s * num_chunks rtp s < rtp + s := by
  unfold num_chunks
  have ha : 0 ≤ rtp + s - 1 := by omega
  rw [Int.tdiv_eq_ediv ha (Int.le_of_lt hs)]
  have hmod : 0 ≤ (rtp + s - 1) % s := Int.emod_nonneg _ (by omega)
  have hlt : (rtp + s - 1) % s < s := Int.emod_lt_of_pos _ hs
  have heq : s * ((rtp + s - 1) / s) + (rtp + s - 1) % s = rtp + s - 1 :=
    Int.ediv_add_emod _ _
  constructor <;> linarith

theorem mem_plannedOffsets {total s : Int} {lim : Option Int} {o : Int}
    (hs : 0 < s) (ho : o ∈ plannedOffsets total s lim) :
    0 ≤ o ∧ offsetAllowed lim o = true ∧
      1 ≤ records_to_process total lim := by
  unfold plannedOffsets at ho
  obtain ⟨i, hi, rfl⟩ := List.mem_map.mp ho
  have hi' : i < (num_chunks (records_to_process total lim) s).toNat :=
    List.mem_range.mp hi
  have hK : 0 < num_chunks (records_to_process total lim) s := by omega
  have hrtp : 1 ≤ records_to_process total lim := by
    by_contra hc
    have := num_chunks_nonpos hs (show records_to_process total lim ≤ 0 by
      omega)
    omega
  refine ⟨mul_nonneg (Int.natCast_nonneg i) (Int.le_of_lt hs), ?_, hrtp⟩
  obtain ⟨h1, h2⟩ := num_chunks_spec hs (by omega :
    0 < records_to_process total lim)
  cases lim with
  | none => rfl
  | some mx =>
    have hle : records_to_process total (some mx) ≤ mx := min_le_left _ _
    have hiK : (i : Int) ≤ num_chunks (records_to_process total (some mx)) s
        - 1 := by omega
    have hmul : (i : Int) * s ≤
        (num_chunks (records_to_process total (some mx)) s - 1) * s :=
      mul_le_mul_of_nonneg_right hiK (Int.le_of_lt hs)
    rw [sub_mul, one_mul, mul_comm] at hmul
    simp only [offsetAllowed, decide_eq_true_eq]
    linarith

theorem plannedOffsets_nodup {total s : Int} {lim : Option Int}
    (hs : 0 < s) : (plannedOffsets total s lim).Nodup := by
  unfold plannedOffsets
  refine List.Nodup.map ?_ (List.nodup_range _)
  intro i j hij
  have h1 : (i : Int) = j :=
    mul_right_cancel₀ (ne_of_gt hs) hij
  exact_mod_cast h1

/-- On a planned (never-skipped) chunk, the chunk task either records one
fetch failure and delivers nothing, or delivers exactly the fetched
records with no failure. -/
theorem chunkRun_eq_of_mem {db : List Row} {args : Args} {ff : Int → Bool}
    {o : Int} (hs : 0 < args.chunk_size)
    (ho : o ∈ plannedOffsets (get_record_count db args.include_deleted)
      args.chunk_size args.limit) :
    chunkRun db args ff o =
      if ff o then ([], 1)
      else (fetch_records db ⟨args.include_deleted, args.chunk_size⟩ o, 0) := by
  obtain ⟨h0, hallow, -⟩ := mem_plannedOffsets hs ho
  unfold chunkRun fetchOutcome
  rw [if_pos hallow]
  by_cases hff : ff o
  · simp [hff, chunkTask]
  · rw [if_neg hff, if_neg (by omega : ¬(args.chunk_size < 0 ∨ o < 0))]
    simp [hff, chunkTask]

/-- Everything a chunk task delivers comes from its own fetch. -/
theorem mem_of_mem_chunkRun {db : List Row} {args : Args} {ff : Int → Bool}
    {o : Int} {r : MarcRecord} (hr : r ∈ (chunkRun db args ff o).1) :
    r ∈ fetch_records db ⟨args.include_deleted, args.chunk_size⟩ o := by
  unfold chunkRun at hr
  split at hr
  · split at hr
    · next recs heq =>
      simp only [chunkTask, List.take_length] at hr
      unfold fetchOutcome at heq
      split at heq
      · cases heq
      · split at heq
        · cases heq
        · injection heq with h
          subst h
          exact hr
    · simp [chunkTask] at hr
  · simp at hr

/-! ### Counting helpers over lists of offsets -/

theorem map_sum_single {α : Type} {l : List α} {a : α}
    (nd : l.Nodup) (ha : a ∈ l) (e : α → Nat) (h1 : e a = 1)
    (h0 : ∀ x ∈ l, x ≠ a → e x = 0) : (l.map e).sum = 1 := by
  induction l with
  | nil => cases ha
  | cons b t ih =>
    rw [List.nodup_cons] at nd
    rcases List.mem_cons.mp ha with rfl | hat
    · have hz : ∀ x ∈ t, e x = 0 := fun x hx =>
        h0 x (List.mem_cons_of_mem _ hx) (by rintro rfl; exact nd.1 hx)
      have : t.map e = t.map (fun _ => 0) := List.map_congr_left hz
      simp [this, h1]
    · have hb : e b = 0 := h0 b (List.mem_cons_self b t) (by
        rintro rfl; exact nd.1 hat)
      have := ih nd.2 hat (fun x hx hxa =>
        h0 x (List.mem_cons_of_mem _ hx) hxa)
      simp [hb, this]

theorem map_sum_except {α : Type} {l : List α} {a : α}
    (nd : l.Nodup) (ha : a ∈ l) (g h : α → Nat) (hga : g a = 0)
    (hgh : ∀ x ∈ l, x ≠ a → g x = h x) :
    (l.map g).sum + h a = (l.map h).sum := by
  induction l with
  | nil => cases ha
  | cons b t ih =>
    rw [List.nodup_cons] at nd
    rcases List.mem_cons.mp ha with rfl | hat
    · have hz : ∀ x ∈ t, g x = h x := fun x hx =>
        hgh x (List.mem_cons_of_mem _ hx) (by rintro rfl; exact nd.1 hx)
      have : t.map g = t.map h := List.map_congr_left hz
      simp [this, hga]
      omega
    · have hb : g b = h b := hgh b (List.mem_cons_self b t) (by
        rintro rfl; exact nd.1 hat)
      have := ih nd.2 hat (fun x hx hxa =>
        hgh x (List.mem_cons_of_mem _ hx) hxa)
      simp only [List.map_cons, List.sum_cons, hb]
      omega

/-! ### Runs with nothing to process -/

theorem records_to_process_zero_nonpos {lim : Option Int} :
    records_to_process 0 lim ≤ 0 := by
  cases lim with
  | none => exact Int.le_refl 0
  | some l => exact min_le_right l 0

theorem plannedOffsets_eq_nil {total s : Int} {lim : Option Int}
    (hs : 0 < s) (h : records_to_process total lim ≤ 0) :
    plannedOffsets total s lim = [] := by
  have hK := num_chunks_nonpos hs h
  unfold plannedOffsets
  rw [Int.toNat_of_nonpos hK]
  rfl

theorem sentRecords_eq_nil {db : List Row} {args : Args} {ff : Int → Bool}
    (hs : 0 < args.chunk_size)
    (h : get_record_count db args.include_deleted = 0) :
    sentRecords db args ff = [] := by
  unfold sentRecords
  rw [h, plannedOffsets_eq_nil hs records_to_process_zero_nonpos]
  rfl

/-! ### Planner arithmetic helpers -/

theorem records_to_process_le_total (total : Int) (lim : Option Int) :
    records_to_process total lim ≤ total := by
  cases lim with
  | none => exact Int.le_refl total
  | some l => exact min_le_right l total

theorem sum_min_range (sN n : Nat) : ∀ K : Nat,
    ((List.range K).map (fun i => min sN (n - i * sN))).sum = min n (K * sN)
  | 0 => by simp
  | K + 1 => by
    rw [List.range_succ, List.map_append, List.sum_append,
      sum_min_range sN n K]
    simp only [List.map_cons, List.map_nil, List.sum_cons, List.sum_nil]
    rw [Nat.succ_mul]
    generalize K * sN = m
    omega

theorem page_length (db : List Row) (cfg : DatabaseConfig) (o : Int) :
    (page db cfg o).length =
      min cfg.chunk_size.toNat
        ((eligible db cfg.include_deleted).length - o.toNat) := by
  unfold page
  rw [List.length_take, List.length_drop]

/-- The value `min(totalCount, recordLimit)`: the number of records the run intends
to cover. -/
def effectiveTotal (db : List Row) (args : Args) : Int :=
  records_to_process (get_record_count db args.include_deleted) args.limit

/-- The number of chunks the spawn loop plans. -/
def chunkCount (db : List Row) (args : Args) : Int :=
  num_chunks (effectiveTotal db args) args.chunk_size

/-- The chunk offsets a run of `main` plans for a given database. -/
def planFor (db : List Row) (args : Args) : List Int :=
  plannedOffsets (get_record_count db args.include_deleted) args.chunk_size
    args.limit

/-! ## The claims -/

/-- C1, counterexample: with an empty eligible table (`totalCount = 0`)
`main` returns early (main.rs lines 84-87) *before* the `XmlWriter` is
ever constructed, so the emitted output is empty — not the header
followed by the footer as the claim states. -/
theorem C1_cex :
    (runMain [] ⟨1000, false, none⟩ (fun _ => false)
        (fun _ => false)).output ≠ xmlHeader ++ xmlFooter
    ∧ (runMain [] ⟨1000, false, none⟩ (fun _ => false)
        (fun _ => false)).output = []
    ∧ (runMain [] ⟨1000, false, none⟩ (fun _ => false)
        (fun _ => false)).processed = 0 := by
  decide

/-- C1, amended: for every run in which the initial count query returns
`totalCount = 0`, the program returns early and emits *no* output at all
(no header, no records, no footer); the processed counter is `0`, no
chunk failures are recorded, and the exit code is `0`. -/
theorem C1_amended (db : List Row) (args : Args) (ff : Int → Bool)
    (wf : MarcRecord → Bool)
    (h : get_record_count db args.include_deleted = 0) :
    runMain db args ff wf = ⟨[], 0, 0, 0⟩ := by
  unfold runMain
  rw [if_pos h]

/-- C1, witness for the amended theorem at a concrete empty database. -/
theorem C1_witness :
    get_record_count [] true = 0
    ∧ runMain [] ⟨5, true, none⟩ (fun _ => true) (fun _ => true)
        = ⟨[], 0, 0, 0⟩ :=
  ⟨by decide, C1_amended [] ⟨5, true, none⟩ (fun _ => true) (fun _ => true)
    (by decide)⟩

/-- C5: whenever the Sink is constructed (`totalCount ≠ 0`, so the writer
task runs), the output is exactly the UTF-8 XML declaration plus the
MARC21-slim open collection tag (written once, before any record), then
one normalized fragment plus newline per successfully written record in
arrival order, then the closing collection tag appended at finalization —
after which nothing else is written.  The processed counter equals the
number of successfully written records.  (`0 < chunk_size` is the spec's
`ExtractionConfig` invariant; at `chunk_size = 0` the real program aborts
with a division-by-zero error instead of running the pipeline.) -/
theorem C5_main (db : List Row) (args : Args) (ff : Int → Bool)
    (wf : MarcRecord → Bool) (hs : 0 < args.chunk_size)
    (h : get_record_count db args.include_deleted ≠ 0) :
    (runMain db args ff wf).output =
      xmlHeader ++ bodyChars wf (sentRecords db args ff) ++ xmlFooter
    ∧ (runMain db args ff wf).processed =
      List.countP (fun r => !wf r) (sentRecords db args ff) := by
  have h0 : 0 < args.chunk_size := hs
  refine ⟨?_, ?_⟩ <;>
    simp [runMain, h, writeLoop_spec, finalizeWriter, List.append_assoc]

/-- C5, witness: a one-record run produces header, fragment, footer. -/
theorem C5_witness :
    (0 : Int) < 1000
    ∧ get_record_count [⟨1, false, some "<record/>".data⟩] false ≠ 0
    ∧ ((runMain [⟨1, false, some "<record/>".data⟩] ⟨1000, false, none⟩
          (fun _ => false) (fun _ => false)).output =
        xmlHeader ++ bodyChars (fun _ => false)
          (sentRecords [⟨1, false, some "<record/>".data⟩]
            ⟨1000, false, none⟩ (fun _ => false)) ++ xmlFooter
      ∧ (runMain [⟨1, false, some "<record/>".data⟩] ⟨1000, false, none⟩
          (fun _ => false) (fun _ => false)).processed =
        List.countP (fun r => !(fun _ : MarcRecord => false) r)
          (sentRecords [⟨1, false, some "<record/>".data⟩]
            ⟨1000, false, none⟩ (fun _ => false))) :=
  ⟨by decide, by decide,
    C5_main [⟨1, false, some "<record/>".data⟩] ⟨1000, false, none⟩
      (fun _ => false) (fun _ => false) (by decide) (by decide)⟩

/-- C7: a fetched row whose payload is NULL (`none`) or blank after
trimming is dropped by `fetch_records` itself — every record it returns
has a non-blank payload — hence every record that reaches the queue (and
so the Sink) is non-blank, and the processed counter never exceeds the
number of enqueued records. -/
theorem C7_main (dbq : List Row) (cfgq : DatabaseConfig) (offq : Int)
    (db : List Row) (args : Args) (ff : Int → Bool)
    (wf : MarcRecord → Bool) :
    (∀ r, r ∈ fetch_records dbq cfgq offq →
      (trimChars r.marc).isEmpty = false)
    ∧ (∀ r, r ∈ sentRecords db args ff →
      (trimChars r.marc).isEmpty = false)
    ∧ (runMain db args ff wf).processed ≤ (sentRecords db args ff).length := by
  have hkeep : ∀ (dbx : List Row) (cfgx : DatabaseConfig) (ox : Int)
      (r : MarcRecord), r ∈ fetch_records dbx cfgx ox →
      (trimChars r.marc).isEmpty = false := by
    intro dbx cfgx ox r hr
    obtain ⟨row, -, hk⟩ := List.mem_filterMap.mp hr
    unfold keepRecord at hk
    split at hk
    · cases hk
    · next m heq =>
      split at hk
      · cases hk
      · next hm =>
        cases hk
        simpa using hm
  refine ⟨hkeep dbq cfgq offq, ?_, ?_⟩
  · intro r hr
    unfold sentRecords at hr
    obtain ⟨l, hl, hrl⟩ := List.mem_flatten.mp hr
    obtain ⟨o, -, rfl⟩ := List.mem_map.mp hl
    exact hkeep _ _ _ _ (mem_of_mem_chunkRun hrl)
  · by_cases h : get_record_count db args.include_deleted = 0
    · simp [runMain, h]
    · simp [runMain, h, writeLoop_spec]
      exact List.countP_le_length (fun r => !wf r)

/-- C7, witness: a whitespace-padded but non-blank payload survives the
filter, and the theorem applies to it. -/
theorem C7_witness :
    (⟨1, " a ".data⟩ : MarcRecord) ∈
      fetch_records [⟨1, false, some " a ".data⟩] ⟨false, 5⟩ 0
    ∧ (trimChars (MarcRecord.mk 1 " a ".data).marc).isEmpty = false :=
  ⟨by decide,
    (C7_main [⟨1, false, some " a ".data⟩] ⟨false, 5⟩ 0
        [⟨1, false, some " a ".data⟩] ⟨5, false, none⟩ (fun _ => false)
        (fun _ => false)).1
      ⟨1, " a ".data⟩ (by decide)⟩

/-- C8: when the fetch of a chunk succeeds but the queue closes after
accepting `cap` sends, the task delivers exactly the first `cap` records,
stops enqueueing (delivering strictly fewer records than it fetched when
`cap` is short), and contributes `0` to the `failedChunks` counter — an
enqueue failure is never counted as a chunk failure. -/
theorem C8_main (recs : List MarcRecord) (cap : Nat) :
    (chunkTask (some recs) cap).2 = 0
    ∧ (chunkTask (some recs) cap).1 = recs.take cap
    ∧ (cap < recs.length →
        (chunkTask (some recs) cap).1.length < recs.length) := by
  refine ⟨rfl, rfl, fun h => ?_⟩
  simp only [chunkTask, List.length_take]
  omega

/-- C8, witness: a queue that closes after one send. -/
theorem C8_witness :
    1 < ([⟨1, "a".data⟩, ⟨2, "b".data⟩] : List MarcRecord).length
    ∧ (chunkTask (some [⟨1, "a".data⟩, ⟨2, "b".data⟩]) 1).2 = 0
    ∧ (chunkTask (some [⟨1, "a".data⟩, ⟨2, "b".data⟩]) 1).1
        = [⟨1, "a".data⟩]
    ∧ (chunkTask (some [⟨1, "a".data⟩, ⟨2, "b".data⟩]) 1).1.length < 2 :=
  ⟨by decide,
    (C8_main [⟨1, "a".data⟩, ⟨2, "b".data⟩] 1).1,
    (C8_main [⟨1, "a".data⟩, ⟨2, "b".data⟩] 1).2.1,
    (C8_main [⟨1, "a".data⟩, ⟨2, "b".data⟩] 1).2.2 (by decide)⟩

/-- C9, counterexample: a run in which the write of the enqueued record
id 1 fails ends with `errors = 0` and exit code `0` — the write failure
is logged only (main.rs lines 123-125); no error counter counts it, so
the claim's "logged and counted" is wrong about the code. -/
theorem C9_cex :
    (fun r : MarcRecord => r.id == 1) ⟨1, "a".data⟩ = true
    ∧ (⟨1, "a".data⟩ : MarcRecord) ∈
      sentRecords [⟨1, false, some "a".data⟩, ⟨2, false, some "b".data⟩]
        ⟨10, false, none⟩ (fun _ => false)
    ∧ (runMain [⟨1, false, some "a".data⟩, ⟨2, false, some "b".data⟩]
        ⟨10, false, none⟩ (fun _ => false)
        (fun r => r.id == 1)).errors = 0
    ∧ (runMain [⟨1, false, some "a".data⟩, ⟨2, false, some "b".data⟩]
        ⟨10, false, none⟩ (fun _ => false)
        (fun r => r.id == 1)).exitCode = 0
    ∧ (runMain [⟨1, false, some "a".data⟩, ⟨2, false, some "b".data⟩]
        ⟨10, false, none⟩ (fun _ => false)
        (fun r => r.id == 1)).processed = 1 := by
  decide

/-- C9, amended: a per-record write failure is logged, the record is
excluded from the processed counter, and the Sink keeps draining the
queue and writing the remaining records — but the failure is *not*
counted: the `errors` counter and the exit code are exactly what they
would be with no write failures, and `processed` counts precisely the
records whose writes succeed, wherever in the stream the failures
occur. -/
theorem C9_amended (db : List Row) (args : Args) (ff : Int → Bool)
    (wf : MarcRecord → Bool) (hs : 0 < args.chunk_size) :
    (runMain db args ff wf).errors =
      (runMain db args ff (fun _ => false)).errors
    ∧ (runMain db args ff wf).exitCode =
      (runMain db args ff (fun _ => false)).exitCode
    ∧ (runMain db args ff wf).processed =
      List.countP (fun r => !wf r) (sentRecords db args ff) := by
  refine ⟨?_, ?_, ?_⟩
  · unfold runMain; split <;> rfl
  · unfold runMain; split <;> rfl
  · by_cases h : get_record_count db args.include_deleted = 0
    · rw [sentRecords_eq_nil hs h]
      simp [runMain, h]
    · simp [runMain, h, writeLoop_spec]

/-- C9, witness for the amended theorem: one failing write among two
records leaves the error counter and exit code untouched and processes
the other record. -/
theorem C9_witness :
    (0 : Int) < 10
    ∧ ((runMain [⟨1, false, some "a".data⟩, ⟨2, false, some "b".data⟩]
          ⟨10, false, none⟩ (fun _ => false)
          (fun r => r.id == 1)).errors =
        (runMain [⟨1, false, some "a".data⟩, ⟨2, false, some "b".data⟩]
          ⟨10, false, none⟩ (fun _ => false) (fun _ => false)).errors
      ∧ (runMain [⟨1, false, some "a".data⟩, ⟨2, false, some "b".data⟩]
          ⟨10, false, none⟩ (fun _ => false)
          (fun r => r.id == 1)).exitCode =
        (runMain [⟨1, false, some "a".data⟩, ⟨2, false, some "b".data⟩]
          ⟨10, false, none⟩ (fun _ => false) (fun _ => false)).exitCode
      ∧ (runMain [⟨1, false, some "a".data⟩, ⟨2, false, some "b".data⟩]
          ⟨10, false, none⟩ (fun _ => false)
          (fun r => r.id == 1)).processed =
        List.countP (fun r => !(fun r : MarcRecord => r.id == 1) r)
          (sentRecords [⟨1, false, some "a".data⟩, ⟨2, false, some "b".data⟩]
            ⟨10, false, none⟩ (fun _ => false))) :=
  ⟨by decide,
    C9_amended [⟨1, false, some "a".data⟩, ⟨2, false, some "b".data⟩]
      ⟨10, false, none⟩ (fun _ => false) (fun r => r.id == 1) (by decide)⟩

/-- C6, counterexample: `clean_marc_xml` removes only the *first* XML
declaration, so on the payload `"<?xml?><?xml?>x"` it yields
`"<?xml?>x"` — a fragment that *is* an output of the transform — and a
second application removes the surviving declaration, giving `"x"`.
The transform is therefore not idempotent on its own outputs. -/
theorem C6_cex :
    clean_marc_xml (clean_marc_xml "<?xml?><?xml?>x".data)
      ≠ clean_marc_xml "<?xml?><?xml?>x".data
    ∧ clean_marc_xml "<?xml?><?xml?>x".data = "<?xml?>x".data
    ∧ clean_marc_xml "<?xml?>x".data = "x".data := by
  decide

/-- C6, amended: the wrapper-stripping transform is idempotent on every
fragment whose (single-pass) output retains no `"<?xml"`, no
`"<collection"` and no `"</collection>"` substring — in particular on
every ordinarily wrapped payload; it is not idempotent in general,
because each pass removes only the first XML declaration and only the
first generic `<collection ...>` open tag, and a deletion can splice
adjacent text into a new occurrence. -/
theorem C6_amended (s : List Char)
    (h1 : containsSub xmlDeclStart (clean_marc_xml s) = false)
    (h2 : containsSub openTagAny (clean_marc_xml s) = false)
    (h3 : containsSub closeTagStr (clean_marc_xml s) = false) :
    clean_marc_xml (clean_marc_xml s) = clean_marc_xml s := by
  have htrim : trimChars (clean_marc_xml s) = clean_marc_xml s :=
    trimChars_idem _
  have h2' : containsSub openTagMarc (clean_marc_xml s) = false := by
    have hsplit : openTagMarc =
        openTagAny ++ " xmlns=\"http://www.loc.gov/MARC21/slim\">".data := by
      decide
    cases hc : containsSub openTagMarc (clean_marc_xml s) with
    | false => rfl
    | true =>
      rw [hsplit] at hc
      rw [containsSub_of_append hc] at h2
      cases h2
  calc clean_marc_xml (clean_marc_xml s)
      = trimChars (removeFirstOpenTag (replaceAll closeTagStr []
          (replaceAll openTagMarc []
            (removeFirstDecl (trimChars (clean_marc_xml s)))))) := rfl
    _ = clean_marc_xml s := by
        rw [htrim, removeFirstDecl_of_not_contains h1,
          replaceAll_of_not_contains h2', replaceAll_of_not_contains h3,
          removeFirstOpenTag_of_not_contains h2, htrim]

/-- C6, witness: an ordinarily wrapped payload normalizes to a fragment
free of the three patterns, and re-normalizing is the identity on it. -/
theorem C6_witness :
    containsSub xmlDeclStart
      (clean_marc_xml "<?xml version=\"1.0\"?><collection xmlns=\"http://www.loc.gov/MARC21/slim\"><record/></collection>".data)
      = false
    ∧ containsSub openTagAny
      (clean_marc_xml "<?xml version=\"1.0\"?><collection xmlns=\"http://www.loc.gov/MARC21/slim\"><record/></collection>".data)
      = false
    ∧ containsSub closeTagStr
      (clean_marc_xml "<?xml version=\"1.0\"?><collection xmlns=\"http://www.loc.gov/MARC21/slim\"><record/></collection>".data)
      = false
    ∧ clean_marc_xml (clean_marc_xml "<?xml version=\"1.0\"?><collection xmlns=\"http://www.loc.gov/MARC21/slim\"><record/></collection>".data)
      = clean_marc_xml "<?xml version=\"1.0\"?><collection xmlns=\"http://www.loc.gov/MARC21/slim\"><record/></collection>".data :=
  ⟨by decide, by decide, by decide,
    C6_amended
      "<?xml version=\"1.0\"?><collection xmlns=\"http://www.loc.gov/MARC21/slim\"><record/></collection>".data
      (by decide) (by decide) (by decide)⟩

/-- C10, counterexample: deleting a `</collection>` occurrence can splice
the surrounding text into a *new* occurrence.  On the payload
`"</collec</collection>tion>"` (whose inner content contains the
substring once), `clean_marc_xml` emits `"</collection>"` — so the
emitted output still contains the substring, contradicting the claim
that such substrings are deleted from the emitted output. -/
theorem C10_cex :
    containsSub closeTagStr "</collec</collection>tion>".data = true
    ∧ clean_marc_xml "</collec</collection>tion>".data = closeTagStr
    ∧ containsSub closeTagStr
        (clean_marc_xml "</collec</collection>tion>".data) = true := by
  decide

/-- C10, amended: the normalization's `replace`-based passes act on every
occurrence present anywhere in the string — a pass strictly shrinks any
string containing its pattern (wrapper position or not) and leaves a
pattern-free string unchanged — while only the first XML declaration and
only the first other `<collection ...>` open tag are removed; however,
deleting a match can splice adjacent text into a new occurrence, so the
emitted output is not guaranteed to be free of these substrings. -/
theorem C10_amended :
    (∀ s, containsSub closeTagStr s = true →
      (replaceAll closeTagStr [] s).length < s.length)
    ∧ (∀ s, containsSub closeTagStr s = false →
      replaceAll closeTagStr [] s = s)
    ∧ (∀ s, containsSub openTagMarc s = true →
      (replaceAll openTagMarc [] s).length < s.length)
    ∧ clean_marc_xml "<record>a</collection>b</record>".data
      = "<record>ab</record>".data
    ∧ clean_marc_xml "<?xml?>a<?xml?>b".data = "a<?xml?>b".data
    ∧ clean_marc_xml "<collection a><collection b>x".data
      = "<collection b>x".data :=
  ⟨fun _ hc => replaceAll_length_lt (by decide) hc,
    fun _ hc => replaceAll_of_not_contains hc,
    fun _ hc => replaceAll_length_lt (by decide) hc,
    by decide, by decide, by decide⟩

/-- C10, witness: the general conjuncts applied at concrete strings with
an inner (non-wrapper) occurrence and with no occurrence. -/
theorem C10_witness :
    containsSub closeTagStr "x</collection>y".data = true
    ∧ (replaceAll closeTagStr [] "x</collection>y".data).length
        < "x</collection>y".data.length
    ∧ containsSub closeTagStr "<record/>".data = false
    ∧ replaceAll closeTagStr [] "<record/>".data = "<record/>".data :=
  ⟨by decide,
    C10_amended.1 "x</collection>y".data (by decide),
    by decide,
    C10_amended.2.1 "<record/>".data (by decide)⟩

/-- C2, counterexample: two eligible records, `chunkSize = 2`,
`recordLimit = 1`.  One chunk is planned (offset 0), but its fetch binds
the full `chunk_size` as the SQL `LIMIT` (db.rs line 61), so it returns
2 records — the per-chunk fetches sum to 2, not `min(n, limit) = 1`. -/
theorem C2_cex :
    ((plannedOffsets
        (get_record_count
          [⟨1, false, some "a".data⟩, ⟨2, false, some "b".data⟩] false)
        2 (some 1)).map
      (fun o => (fetch_records
        [⟨1, false, some "a".data⟩, ⟨2, false, some "b".data⟩]
        ⟨false, 2⟩ o).length)).sum = 2
    ∧ records_to_process
        (get_record_count
          [⟨1, false, some "a".data⟩, ⟨2, false, some "b".data⟩] false)
        (some 1) = 1
    ∧ ((plannedOffsets
        (get_record_count
          [⟨1, false, some "a".data⟩, ⟨2, false, some "b".data⟩] false)
        2 (some 1)).map
      (fun o => (fetch_records
        [⟨1, false, some "a".data⟩, ⟨2, false, some "b".data⟩]
        ⟨false, 2⟩ o).length)).sum
      ≠ (records_to_process
          (get_record_count
            [⟨1, false, some "a".data⟩, ⟨2, false, some "b".data⟩] false)
          (some 1)).toNat := by
  decide

/-- C2, amended: for chunk size `s > 0` the planner emits exactly
`ceil(min(n, limit)/s)` chunks (characterized arithmetically in the third
conjunct) at offsets `0, s, 2s, …`; every chunk's SQL fetch limit is the
full `s` (never truncated to a remainder), so the per-chunk fetches of
the paginated relation sum to `min(n, s·ceil(min(n, limit)/s))` rows —
which equals `min(n, limit)` when the limit is absent, a multiple of
`s`, or at least `n`, but exceeds it when the limit falls strictly
inside a chunk. -/
theorem C2_amended (db : List Row) (args : Args)
    (hs : 0 < args.chunk_size) :
    (planFor db args).length = (chunkCount db args).toNat
    ∧ (∀ i, (hi : i < (planFor db args).length) →
        (planFor db args).get ⟨i, hi⟩ = (i : Int) * args.chunk_size)
    ∧ (0 < effectiveTotal db args →
        effectiveTotal db args ≤ args.chunk_size * chunkCount db args
        ∧ args.chunk_size * chunkCount db args
            < effectiveTotal db args + args.chunk_size)
    ∧ ((planFor db args).map (fun o =>
        (page db ⟨args.include_deleted, args.chunk_size⟩ o).length)).sum
      = min (eligible db args.include_deleted).length
          ((chunkCount db args).toNat * args.chunk_size.toNat) := by
  have hcast : ∀ i : Nat, ((i : Int) * args.chunk_size).toNat
      = i * args.chunk_size.toNat := by
    intro i
    have hs' : ((args.chunk_size.toNat : Int)) = args.chunk_size :=
      Int.toNat_of_nonneg (Int.le_of_lt hs)
    rw [← hs', ← Int.natCast_mul, Int.toNat_natCast, Int.toNat_natCast]
  refine ⟨?_, ?_, ?_, ?_⟩
  · simp [planFor, plannedOffsets, chunkCount, effectiveTotal]
  · intro i hi
    simp [planFor, plannedOffsets, List.get_eq_getElem]
  · intro h
    exact num_chunks_spec hs h
  · unfold chunkCount effectiveTotal planFor plannedOffsets
    rw [List.map_map]
    have hfun : ∀ i ∈ List.range
        (num_chunks (records_to_process
          (get_record_count db args.include_deleted) args.limit)
          args.chunk_size).toNat,
        ((fun o => (page db ⟨args.include_deleted, args.chunk_size⟩
            o).length) ∘ fun i : Nat => (i : Int) * args.chunk_size) i
        = min args.chunk_size.toNat
            ((eligible db args.include_deleted).length
              - i * args.chunk_size.toNat) := by
      intro i _
      simp only [Function.comp_apply]
      rw [page_length, hcast]
    rw [List.map_congr_left hfun, sum_min_range]

/-- C2, witness for the amended theorem: 2 eligible rows, chunk size 2,
limit 1 — one chunk whose fetch covers `min(2, 1·2) = 2` rows. -/
theorem C2_witness :
    (0 : Int) < 2
    ∧ ((planFor [⟨1, false, some "a".data⟩, ⟨2, false, some "b".data⟩]
          ⟨2, false, some 1⟩).map
        (fun o => (page
          [⟨1, false, some "a".data⟩, ⟨2, false, some "b".data⟩]
          ⟨false, 2⟩ o).length)).sum
      = min (eligible
            [⟨1, false, some "a".data⟩, ⟨2, false, some "b".data⟩]
            false).length
          ((chunkCount [⟨1, false, some "a".data⟩, ⟨2, false, some "b".data⟩]
            ⟨2, false, some 1⟩).toNat * (2 : Int).toNat) :=
  ⟨by decide,
    (C2_amended [⟨1, false, some "a".data⟩, ⟨2, false, some "b".data⟩]
      ⟨2, false, some 1⟩ (by decide)).2.2.2⟩

/-- C3: with `recordLimit = 100` and `chunkSize = 1000`, exactly one
chunk is planned (offset 0), it passes the skip check, and its fetch
requests the full chunk — the page it retrieves holds
`min(totalCount, 1000)` rows, not at most 100; in particular more than
100 rows whenever more than 100 are eligible. -/
theorem C3_main (db : List Row) (ic : Bool)
    (h : 1 ≤ get_record_count db ic) :
    plannedOffsets (get_record_count db ic) 1000 (some 100) = [0]
    ∧ offsetAllowed (some 100) 0 = true
    ∧ (page db ⟨ic, 1000⟩ 0).length = min (get_record_count db ic).toNat 1000
    ∧ (100 < get_record_count db ic → 100 < (page db ⟨ic, 1000⟩ 0).length) := by
  have hn : get_record_count db ic = ((eligible db ic).length : Int) := rfl
  have hpage : (page db ⟨ic, 1000⟩ 0).length
      = min 1000 (eligible db ic).length := by
    rw [page_length, show ((1000 : Int).toNat) = 1000 from rfl]
    norm_num
  have hK : num_chunks (records_to_process (get_record_count db ic)
      (some 100)) 1000 = 1 := by
    have hmin : records_to_process (get_record_count db ic) (some 100)
        = min 100 (get_record_count db ic) := rfl
    rw [hmin]
    unfold num_chunks
    rw [Int.tdiv_eq_ediv (by omega) (by omega)]
    omega
  refine ⟨?_, by decide, ?_, ?_⟩
  · unfold plannedOffsets
    rw [hK]
    decide
  · rw [hpage, hn, Int.toNat_natCast, Nat.min_comm]
  · intro h100
    rw [hpage]
    rw [hn] at h100
    have h100' : 100 < (eligible db ic).length := by exact_mod_cast h100
    omega

set_option maxRecDepth 8000 in
/-- C3, witness: 150 eligible rows — one planned chunk, and the page
holds 150 rows, exceeding the limit of 100. -/
theorem C3_witness :
    1 ≤ get_record_count (List.replicate 150 ⟨1, false, some "x".data⟩) false
    ∧ (plannedOffsets
        (get_record_count (List.replicate 150 ⟨1, false, some "x".data⟩)
          false) 1000 (some 100) = [0]
      ∧ offsetAllowed (some 100) 0 = true
      ∧ (page (List.replicate 150 ⟨1, false, some "x".data⟩)
          ⟨false, 1000⟩ 0).length =
        min (get_record_count (List.replicate 150 ⟨1, false, some "x".data⟩)
          false).toNat 1000
      ∧ (100 < get_record_count (List.replicate 150 ⟨1, false, some "x".data⟩)
          false →
        100 < (page (List.replicate 150 ⟨1, false, some "x".data⟩)
          ⟨false, 1000⟩ 0).length)) :=
  ⟨by decide,
    C3_main (List.replicate 150 ⟨1, false, some "x".data⟩) false (by decide)⟩

/-- C4: if among the planned chunks exactly one (at offset `o`) suffers a
fetch failure, the run ends with `failedChunks = 1` and exit code `1`,
and `processed` differs from the failure-free run by exactly the failing
chunk's contribution — every other chunk's records are still written and
counted; and in general (final conjunct) the exit code of a run is
non-zero iff `failedChunks > 0`. -/
theorem C4_main (db : List Row) (args : Args) (ff : Int → Bool)
    (wf : MarcRecord → Bool) (o : Int)
    (hs : 0 < args.chunk_size)
    (ho : o ∈ plannedOffsets (get_record_count db args.include_deleted)
      args.chunk_size args.limit)
    (hfo : ff o = true)
    (hothers : ∀ x ∈ plannedOffsets (get_record_count db args.include_deleted)
      args.chunk_size args.limit, x ≠ o → ff x = false) :
    (runMain db args ff wf).errors = 1
    ∧ (runMain db args ff wf).exitCode = 1
    ∧ (runMain db args ff wf).processed
        + List.countP (fun r => !wf r)
            (fetch_records db ⟨args.include_deleted, args.chunk_size⟩ o)
      = (runMain db args (fun _ => false) wf).processed
    ∧ (∀ (dbx : List Row) (argsx : Args) (ffx : Int → Bool)
        (wfx : MarcRecord → Bool),
        (runMain dbx argsx ffx wfx).exitCode ≠ 0
          ↔ 0 < (runMain dbx argsx ffx wfx).errors) := by
  have h0 : get_record_count db args.include_deleted ≠ 0 := by
    obtain ⟨-, -, hrtp⟩ := mem_plannedOffsets hs ho
    have := records_to_process_le_total
      (get_record_count db args.include_deleted) args.limit
    omega
  have herr : chunkErrors db args ff = 1 := by
    unfold chunkErrors
    refine map_sum_single (plannedOffsets_nodup hs) ho _ ?_ ?_
    · show (chunkRun db args ff o).2 = 1
      have e1 := @chunkRun_eq_of_mem db args ff o hs ho
      rw [if_pos hfo] at e1
      rw [e1]
    · intro x hx hxo
      show (chunkRun db args ff x).2 = 0
      have e1 := @chunkRun_eq_of_mem db args ff x hs hx
      rw [if_neg (by simp [hothers x hx hxo])] at e1
      rw [e1]
  have hprocEq : ∀ ffx : Int → Bool,
      (runMain db args ffx wf).processed =
        List.countP (fun r => !wf r) (sentRecords db args ffx) := by
    intro ffx
    simp [runMain, h0, writeLoop_spec]
  have hsplitSum : ∀ ffx : Int → Bool,
      List.countP (fun r => !wf r) (sentRecords db args ffx) =
        ((plannedOffsets (get_record_count db args.include_deleted)
            args.chunk_size args.limit).map (fun x =>
          List.countP (fun r => !wf r) (chunkRun db args ffx x).1)).sum := by
    intro ffx
    unfold sentRecords
    rw [List.countP_flatten, List.map_map]
    rfl
  have hno : (chunkRun db args (fun _ => false) o).1 =
      fetch_records db ⟨args.include_deleted, args.chunk_size⟩ o := by
    rw [chunkRun_eq_of_mem hs ho]
    simp
  have hkey := map_sum_except (plannedOffsets_nodup hs) ho
    (fun x => List.countP (fun r => !wf r) (chunkRun db args ff x).1)
    (fun x => List.countP (fun r => !wf r)
      (chunkRun db args (fun _ => false) x).1)
    (by
      have e1 := @chunkRun_eq_of_mem db args ff o hs ho
      rw [if_pos hfo] at e1
      show List.countP (fun r => !wf r) (chunkRun db args ff o).1 = 0
      rw [e1]
      simp)
    (by
      intro x hx hxo
      have e1 := @chunkRun_eq_of_mem db args ff x hs hx
      rw [if_neg (by simp [hothers x hx hxo])] at e1
      have e2 := @chunkRun_eq_of_mem db args (fun _ => false) x hs hx
      rw [if_neg (by simp)] at e2
      show List.countP (fun r => !wf r) (chunkRun db args ff x).1
        = List.countP (fun r => !wf r)
            (chunkRun db args (fun _ => false) x).1
      rw [e1, e2])
  refine ⟨?_, ?_, ?_, ?_⟩
  · simp [runMain, h0, herr]
  · simp [runMain, h0, herr]
  · rw [hprocEq ff, hprocEq (fun _ => false), hsplitSum ff,
      hsplitSum (fun _ => false), ← hno]
    exact hkey
  · intro dbx argsx ffx wfx
    by_cases hz : get_record_count dbx argsx.include_deleted = 0
    · simp [runMain, hz]
    · by_cases he : 0 < chunkErrors dbx argsx ffx
      · simp [runMain, hz, he]
      · simp [runMain, hz, he]

/-- C4, witness: two single-record chunks, the first chunk's fetch
fails — one counted failure, exit code 1. -/
theorem C4_witness :
    (0 : Int) ∈ plannedOffsets
      (get_record_count
        [⟨1, false, some "a".data⟩, ⟨2, false, some "b".data⟩] false)
      1 none
    ∧ (runMain [⟨1, false, some "a".data⟩, ⟨2, false, some "b".data⟩]
        ⟨1, false, none⟩ (fun x => x == 0) (fun _ => false)).errors = 1
    ∧ (runMain [⟨1, false, some "a".data⟩, ⟨2, false, some "b".data⟩]
        ⟨1, false, none⟩ (fun x => x == 0) (fun _ => false)).exitCode = 1 := by
  refine ⟨by decide, ?_, ?_⟩
  · exact (C4_main [⟨1, false, some "a".data⟩, ⟨2, false, some "b".data⟩]
      ⟨1, false, none⟩ (fun x => x == 0) (fun _ => false) 0
      (by decide) (by decide) (by decide) (by decide)).1
  · exact (C4_main [⟨1, false, some "a".data⟩, ⟨2, false, some "b".data⟩]
      ⟨1, false, none⟩ (fun x => x == 0) (fun _ => false) 0
      (by decide) (by decide) (by decide) (by decide)).2.1

end MarcExtract
